import Mathlib

/-!
# x86 atomic primitives (`xen/include/asm-x86/atomic.h`)

A shallow embedding of the header's atomic counter operations, its
compare-and-swap and its 64-bit emulation path for 32-bit targets.

* A C `int` is an `Int` in `[INT_MIN, INT_MAX]` (`InRange`); the 32-bit word the
  hardware sees is its bit pattern, a `Nat` below `2^32` (`toU32`, `ofU32`).
* Every `asm volatile` body is one locked instruction followed, in the testing
  variants, by a `setcc`; each instruction is a function on bit patterns that
  also yields the two flags the header reads (`ZF`, `SF`).
* A function taking `atomic_t *v` becomes a function from the counter before
  the call to the returned value and the counter after it.
-/

namespace XenAtomic

/-! ## Machine integers -/

/-- Smallest value of a C `int` (32 bits, two's complement). -/
def INT_MIN : Int := -2147483648

/-- Largest value of a C `int`. -/
def INT_MAX : Int := 2147483647

/-- The values a C `int` can hold. -/
def InRange (x : Int) : Prop := INT_MIN ≤ x ∧ x ≤ INT_MAX

instance (x : Int) : Decidable (InRange x) := by
  unfold InRange; exact inferInstance

/-- Bit pattern of an `int` as it sits in a 32-bit register or memory word. -/
def toU32 (x : Int) : Nat := (x % 4294967296).toNat

/-- Two's-complement reading of a 32-bit pattern as an `int`. -/
def ofU32 (n : Nat) : Int := if n < 2147483648 then (n : Int) else (n : Int) - 4294967296

/-- Reference reading of "wrapped to 32 bits": the unique `int` congruent to
`x` modulo `2^32`.  Used only to state properties, never by the operations. -/
def wrap32 (x : Int) : Int := (x + 2147483648) % 4294967296 - 2147483648

/-! ## Instructions -/

/-- The two status flags the header tests after an arithmetic instruction. -/
structure EFlags where
  /-- Zero flag: the 32-bit result is zero. -/
  ZF : Bool
  /-- Sign flag: bit 31 of the 32-bit result. -/
  SF : Bool
  deriving DecidableEq

/-- Flags produced by a 32-bit arithmetic result. -/
def result_flags (r : Nat) : EFlags :=
  { ZF := decide (r = 0), SF := decide (r / 2147483648 % 2 = 1) }

/-- Instruction `addl src,dst`: the new `dst` and the flags. -/
def addl (src dst : Nat) : Nat × EFlags :=
  let r := (dst + src) % 4294967296
  (r, result_flags r)

/-- Instruction `subl src,dst`: the new `dst` and the flags. -/
def subl (src dst : Nat) : Nat × EFlags :=
  let r := (dst + (4294967296 - src % 4294967296)) % 4294967296
  (r, result_flags r)

/-- Instruction `incl dst`. -/
def incl (dst : Nat) : Nat × EFlags :=
  let r := (dst + 1) % 4294967296
  (r, result_flags r)

/-- Instruction `decl dst`. -/
def decl (dst : Nat) : Nat × EFlags :=
  let r := (dst + 4294967295) % 4294967296
  (r, result_flags r)

/-- Instruction `sete c`: the byte `c` becomes 1 when `ZF` is set, else 0. -/
def sete (f : EFlags) : Nat := if f.ZF then 1 else 0

/-- Instruction `sets c`: the byte `c` becomes 1 when `SF` is set, else 0. -/
def sets (f : EFlags) : Nat := if f.SF then 1 else 0

/-! ## The counter -/

/-- The header's `typedef struct { int counter; } atomic_t;`. -/
structure atomic_t where
  counter : Int
  deriving DecidableEq

/-- Body of `atomic_add`: `lock; addl %1,%0` on `v->counter` with `i`. -/
def atomic_add (i : Int) (v : atomic_t) : atomic_t :=
  { counter := ofU32 (addl (toU32 i) (toU32 v.counter)).1 }

/-- Body of `atomic_sub`: `lock; subl %1,%0`. -/
def atomic_sub (i : Int) (v : atomic_t) : atomic_t :=
  { counter := ofU32 (subl (toU32 i) (toU32 v.counter)).1 }

/-- Body of `atomic_sub_and_test`: `lock; subl %2,%0; sete %1`, then `return c`. -/
def atomic_sub_and_test (i : Int) (v : atomic_t) : Int × atomic_t :=
  let r := subl (toU32 i) (toU32 v.counter)
  let c := sete r.2
  ((c : Int), { counter := ofU32 r.1 })

/-- Body of `atomic_inc`: `lock; incl %0`. -/
def atomic_inc (v : atomic_t) : atomic_t :=
  { counter := ofU32 (incl (toU32 v.counter)).1 }

/-- Body of `atomic_dec`: `lock; decl %0`. -/
def atomic_dec (v : atomic_t) : atomic_t :=
  { counter := ofU32 (decl (toU32 v.counter)).1 }

/-- Body of `atomic_dec_and_test`: `lock; decl %0; sete %1`, then
`return c != 0`. -/
def atomic_dec_and_test (v : atomic_t) : Int × atomic_t :=
  let r := decl (toU32 v.counter)
  let c := sete r.2
  ((if c ≠ 0 then 1 else 0), { counter := ofU32 r.1 })

/-- Body of `atomic_inc_and_test`: `lock; incl %0; sete %1`, then
`return c != 0`. -/
def atomic_inc_and_test (v : atomic_t) : Int × atomic_t :=
  let r := incl (toU32 v.counter)
  let c := sete r.2
  ((if c ≠ 0 then 1 else 0), { counter := ofU32 r.1 })

/-- Body of `atomic_add_negative`: `lock; addl %2,%0; sets %1`, then
`return c`. -/
def atomic_add_negative (i : Int) (v : atomic_t) : Int × atomic_t :=
  let r := addl (toU32 i) (toU32 v.counter)
  let c := sets r.2
  ((c : Int), { counter := ofU32 r.1 })

/-! ## Compare-and-swap -/

/-- Modelled from the spec: the locked compare-exchange wrapper `__cmpxchg`
(declared in `asm/system.h`, which the header includes; the spec's
`raw_cmpxchg(address, old, new, width)`) is not part of the source at hand.
Following the spec's contract for compare-and-swap: if the current value of
the `size`-byte cell equals `old`, `new` is stored; in either case the value
observed at the comparison is returned.  Only the low `8 * size` bits of `old`
and `new` take part.  The result is the returned value and the cell after. -/
def __cmpxchg (mem old new size : Nat) : Nat × Nat :=
  let w := 2 ^ (8 * size)
  if mem % w = old % w then (mem % w, new % w) else (mem % w, mem)

/-- Body of `atomic_compareandswap`:
`rc.counter = __cmpxchg(&v->counter, old.counter, new.counter, sizeof(int))`.
The result is `rc` and the counter after the call. -/
def atomic_compareandswap (old new v : atomic_t) : atomic_t × atomic_t :=
  let r := __cmpxchg (toU32 v.counter) (toU32 old.counter) (toU32 new.counter) 4
  ({ counter := ofU32 r.1 }, { counter := ofU32 r.2 })

/-! ## 64-bit emulation path (32-bit targets) -/

/-- High half of a 64-bit value. -/
def hi32 (x : Nat) : Nat := x / 4294967296 % 4294967296

/-- Low half of a 64-bit value. -/
def lo32 (x : Nat) : Nat := x % 4294967296

/-- The 64-bit value made of two 32-bit halves. -/
def join64 (hi lo : Nat) : Nat := hi * 4294967296 + lo

/-- Outcome of one 8-byte compare-exchange. -/
structure Cmpxchg8Result where
  /-- Whether the comparison found the expected value (the store happened). -/
  ZF : Bool
  /-- High half of the value observed. -/
  prev_hi : Nat
  /-- Low half of the value observed. -/
  prev_lo : Nat
  /-- The 8-byte cell afterwards. -/
  mem : Nat
  deriving DecidableEq

/-- Modelled from the spec: the 8-byte locked compare-exchange
`raw_cmpxchg8(address, old_hi, old_lo, new_hi, new_lo)` that the spec names as
a consumed external primitive is not part of the source at hand.  Following
the spec: when both halves of the cell equal the expected halves the
replacement halves are stored, otherwise the cell is left unmodified; in
either case the value observed is returned. -/
def raw_cmpxchg8 (mem old_hi old_lo new_hi new_lo : Nat) : Cmpxchg8Result :=
  if hi32 mem = old_hi ∧ lo32 mem = old_lo then
    { ZF := true, prev_hi := hi32 mem, prev_lo := lo32 mem, mem := join64 new_hi new_lo }
  else
    { ZF := false, prev_hi := hi32 mem, prev_lo := lo32 mem, mem := mem }

/-- Modelled from the spec: the wrapper `__cmpxchg8b(ptr, old, new)` (declared
in `asm/system.h`) is not part of the source at hand; it hands the halves of
its two 64-bit arguments to the 8-byte compare-exchange and returns the
observed value.  The result is the returned value and the cell after. -/
def __cmpxchg8b (mem old new : Nat) : Nat × Nat :=
  let r := raw_cmpxchg8 mem (hi32 old) (lo32 old) (hi32 new) (lo32 new)
  (join64 r.prev_hi r.prev_lo, r.mem)

/-- Body of `atomic_read64` on the 32-bit path: `return __cmpxchg8b(__addr, 0, 0);`.
The result is the returned value and the cell after. -/
def atomic_read64 (mem : Nat) : Nat × Nat :=
  __cmpxchg8b mem 0 0

/-- The loop of `atomic_write64`,
`while ( (new = __cmpxchg8b(__addr, old, val)) != old ) old = new;`,
run with no other writer touching the cell.  `fuel` bounds the number of
compare-exchange attempts; `none` means the bound was reached before the loop
exited, `some m` that the loop exited leaving the cell at `m`. -/
def atomic_write64_loop : Nat → Nat → Nat → Nat → Option Nat
  | 0, _, _, _ => none
  | fuel + 1, mem, old, val =>
    let r := __cmpxchg8b mem old val
    if r.1 ≠ old then atomic_write64_loop fuel r.2 r.1 val else some r.2

/-- Body of `atomic_write64` on the 32-bit path: `uint64_t old = *addr` and
then the loop. -/
def atomic_write64 (fuel mem val : Nat) : Option Nat :=
  let old := mem
  atomic_write64_loop fuel mem old val

/-- The values a `uint64_t` can hold. -/
def IsU64 (x : Nat) : Prop := x < 18446744073709551616

instance (x : Nat) : Decidable (IsU64 x) := by
  unfold IsU64; exact inferInstance

/-! ## Plain accessors and the initializer -/

/-- Instruction `movl src,dst`: `dst` takes the 32-bit word `src`. -/
def movl (src : Nat) : Nat := src % 4294967296

/-- The function `build_atomic_read(atomic_read_int, "l", int, "=r", )` builds:
`movl %1,%0` from the word at `addr` into `ret`, then `return ret`.  The
argument is the `int` stored at `addr`. -/
def atomic_read_int (addr : Int) : Int := ofU32 (movl (toU32 addr))

/-- The function `build_atomic_write(atomic_write_int, "l", int, "r", )` builds:
`movl %1,%0` from `val` into the word at `addr`.  The result is the `int`
stored at `addr` afterwards; what was there before plays no part. -/
def atomic_write_int (_addr val : Int) : Int := ofU32 (movl (toU32 val))

/-- The header's `#define ATOMIC_INIT(i) { (i) }`. -/
def ATOMIC_INIT (i : Int) : atomic_t := { counter := i }

/-- The header's `#define _atomic_read(v) ((v).counter)`. -/
def _atomic_read (v : atomic_t) : Int := v.counter

/-- The header's `#define atomic_read(v) atomic_read_int(&((v)->counter))`. -/
def atomic_read (v : atomic_t) : Int := atomic_read_int v.counter

/-- The header's `#define _atomic_set(v,i) (((v).counter) = (i))`: the counter
after the assignment. -/
def _atomic_set (_v : atomic_t) (i : Int) : atomic_t := { counter := i }

/-- The header's `#define atomic_set(v,i) atomic_write_int(&((v)->counter), (i))`:
the counter after the store. -/
def atomic_set (v : atomic_t) (i : Int) : atomic_t :=
  { counter := atomic_write_int v.counter i }

/-! ## The write loop as a state machine with an environment -/

/-- Control state of the loop of `atomic_write64`: about to make a
compare-exchange attempt with the cell holding `mem` and the local guess
`old`, or left the loop with the cell holding `mem`. -/
inductive Write64State where
  | attempt (mem old : Nat)
  | done (mem : Nat)
  deriving DecidableEq

/-- One evaluation of the loop condition
`(new = __cmpxchg8b(__addr, old, val)) != old` and, when it holds, of the body
`old = new`. -/
def atomic_write64_attempt (val : Nat) : Write64State → Write64State
  | Write64State.attempt mem old =>
    let r := __cmpxchg8b mem old val
    if r.1 ≠ old then Write64State.attempt r.2 r.1 else Write64State.done r.2
  | Write64State.done mem => Write64State.done mem

/-- What other contexts do to the cell before the next attempt: nothing
(`none`) or a committed write of `x` (`some x`).  Once the loop is left the
cell is no longer followed. -/
def env_write (w : Option Nat) : Write64State → Write64State
  | Write64State.attempt mem old => Write64State.attempt (w.getD mem) old
  | Write64State.done mem => Write64State.done mem

/-- The loop of `atomic_write64` under an environment: before each attempt the
environment acts once; the list holds one entry per attempt allowed. -/
def atomic_write64_run (val : Nat) : List (Option Nat) → Write64State → Write64State
  | [], s => s
  | w :: ws, s => atomic_write64_run val ws (atomic_write64_attempt val (env_write w s))

/-! ## Several contexts on one counter -/

/-- A call issued on the shared counter by some context. -/
inductive CounterCall where
  | add (i : Int)
  | sub (i : Int)
  | inc
  deriving DecidableEq

/-- The effect of one call: each is a single locked instruction, so it acts on
the counter in one indivisible step. -/
def CounterCall.exec : CounterCall → atomic_t → atomic_t
  | CounterCall.add i, v => atomic_add i v
  | CounterCall.sub i, v => atomic_sub i v
  | CounterCall.inc, v => atomic_inc v

/-- The amount a call is meant to add to the counter. -/
def CounterCall.delta : CounterCall → Int
  | CounterCall.add i => i
  | CounterCall.sub i => -i
  | CounterCall.inc => 1

/-- Sum of the deltas of the calls the contexts have still to issue. -/
def total_delta : List (List CounterCall) → Int
  | [] => 0
  | l :: cs => (l.map CounterCall.delta).sum + total_delta cs

/-- Context `k` issues its next call, if it exists and has one left; the other
contexts keep theirs. -/
def sched_step : Nat → List (List CounterCall) → atomic_t → List (List CounterCall) × atomic_t
  | _, [], v => ([], v)
  | 0, [] :: cs, v => ([] :: cs, v)
  | 0, (c :: rest) :: cs, v => (rest :: cs, c.exec v)
  | k + 1, l :: cs, v => (l :: (sched_step k cs v).1, (sched_step k cs v).2)

/-- An interleaving: the schedule names, step by step, the context that issues
its next call. -/
def run_schedule : List Nat → List (List CounterCall) → atomic_t → List (List CounterCall) × atomic_t
  | [], cs, v => (cs, v)
  | k :: ks, cs, v => run_schedule ks (sched_step k cs v).1 (sched_step k cs v).2

/-- Every context has issued all of its calls. -/
def all_issued (cs : List (List CounterCall)) : Bool := cs.all List.isEmpty

/-! ## Arithmetic facts about the encoding -/

theorem ofU32_toU32 (x : Int) (h : InRange x) : ofU32 (toU32 x) = x := by
  unfold InRange INT_MIN INT_MAX at h
  unfold ofU32 toU32
  split <;> omega

theorem toU32_lt (x : Int) : toU32 x < 4294967296 := by
  unfold toU32
  omega

theorem toU32_inj (x y : Int) (hx : InRange x) (hy : InRange y)
    (h : toU32 x = toU32 y) : x = y := by
  rw [← ofU32_toU32 x hx, ← ofU32_toU32 y hy, h]

theorem addl_val (i c : Int) : ofU32 (addl (toU32 i) (toU32 c)).1 = wrap32 (c + i) := by
  unfold ofU32 addl toU32 wrap32
  simp only
  split <;> omega

theorem subl_val (i c : Int) : ofU32 (subl (toU32 i) (toU32 c)).1 = wrap32 (c - i) := by
  unfold ofU32 subl toU32 wrap32
  simp only
  split <;> omega

theorem incl_val (c : Int) : ofU32 (incl (toU32 c)).1 = wrap32 (c + 1) := by
  unfold ofU32 incl toU32 wrap32
  simp only
  split <;> omega

theorem decl_val (c : Int) : ofU32 (decl (toU32 c)).1 = wrap32 (c - 1) := by
  unfold ofU32 decl toU32 wrap32
  simp only
  split <;> omega

theorem wrap32_inRange (x : Int) : InRange (wrap32 x) := by
  unfold InRange INT_MIN INT_MAX wrap32
  omega

theorem wrap32_congr (x : Int) : (wrap32 x - x) % 4294967296 = 0 := by
  unfold wrap32
  omega

theorem wrap32_of_inRange (x : Int) (h : InRange x) : wrap32 x = x := by
  unfold InRange INT_MIN INT_MAX at h
  unfold wrap32
  omega

theorem wrap32_eq_zero_iff (x : Int) : wrap32 x = 0 ↔ x % 4294967296 = 0 := by
  unfold wrap32
  omega

/-- ZF after an instruction says the stored `int` is zero. -/
theorem sete_result_flags (r : Nat) (h : r < 4294967296) :
    sete (result_flags r) = if ofU32 r = 0 then 1 else 0 := by
  unfold sete result_flags ofU32
  by_cases h0 : r = 0
  · subst h0; simp
  · have h1 : ¬ ((if r < 2147483648 then (r : Int) else (r : Int) - 4294967296) = 0) := by
      split <;> omega
    simp [h0, h1]

/-- SF after an instruction says the stored `int` is negative. -/
theorem sets_result_flags (r : Nat) (h : r < 4294967296) :
    sets (result_flags r) = if ofU32 r < 0 then 1 else 0 := by
  unfold sets result_flags ofU32
  by_cases h0 : r < 2147483648
  · have h1 : ¬ (r / 2147483648 % 2 = 1) := by omega
    have h2 : ¬ ((r : Int) < 0) := by omega
    simp [h0, h1, h2]
  · have h1 : r / 2147483648 % 2 = 1 := by omega
    have h2 : (r : Int) - 4294967296 < 0 := by omega
    simp [h0, h1, h2]

theorem addl_lt (a b : Nat) : (addl a b).1 < 4294967296 := by
  unfold addl; simp only; omega

theorem subl_lt (a b : Nat) : (subl a b).1 < 4294967296 := by
  unfold subl; simp only; omega

theorem incl_lt (b : Nat) : (incl b).1 < 4294967296 := by
  unfold incl; simp only; omega

theorem decl_lt (b : Nat) : (decl b).1 < 4294967296 := by
  unfold decl; simp only; omega

theorem addl_flags (a b : Nat) : (addl a b).2 = result_flags (addl a b).1 := rfl

theorem subl_flags (a b : Nat) : (subl a b).2 = result_flags (subl a b).1 := rfl

theorem incl_flags (b : Nat) : (incl b).2 = result_flags (incl b).1 := rfl

theorem decl_flags (b : Nat) : (decl b).2 = result_flags (decl b).1 := rfl

/-! ## What each testing variant returns and stores -/

theorem atomic_sub_and_test_eq (i : Int) (v : atomic_t) :
    atomic_sub_and_test i v
      = ((if wrap32 (v.counter - i) = 0 then 1 else 0), { counter := wrap32 (v.counter - i) }) := by
  unfold atomic_sub_and_test
  simp only [subl_flags, sete_result_flags _ (subl_lt _ _), subl_val]
  split <;> simp

theorem atomic_dec_and_test_eq (v : atomic_t) :
    atomic_dec_and_test v
      = ((if wrap32 (v.counter - 1) = 0 then 1 else 0), { counter := wrap32 (v.counter - 1) }) := by
  unfold atomic_dec_and_test
  simp only [decl_flags, sete_result_flags _ (decl_lt _), decl_val]
  split <;> simp

theorem atomic_inc_and_test_eq (v : atomic_t) :
    atomic_inc_and_test v
      = ((if wrap32 (v.counter + 1) = 0 then 1 else 0), { counter := wrap32 (v.counter + 1) }) := by
  unfold atomic_inc_and_test
  simp only [incl_flags, sete_result_flags _ (incl_lt _), incl_val]
  split <;> simp

theorem atomic_add_negative_eq (i : Int) (v : atomic_t) :
    atomic_add_negative i v
      = ((if wrap32 (v.counter + i) < 0 then 1 else 0), { counter := wrap32 (v.counter + i) }) := by
  unfold atomic_add_negative
  simp only [addl_flags, sets_result_flags _ (addl_lt _ _), addl_val]
  split <;> simp

/-! ## Compare-and-swap on the counter -/

theorem atomic_compareandswap_eq (e r c : Int) (hc : InRange c) (he : InRange e)
    (hr : InRange r) :
    atomic_compareandswap { counter := e } { counter := r } { counter := c }
      = ({ counter := c }, { counter := if c = e then r else c }) := by
  have h4 : (2 : Nat) ^ (8 * 4) = 4294967296 := by norm_num
  have hcm : toU32 c % 4294967296 = toU32 c := Nat.mod_eq_of_lt (toU32_lt c)
  have hem : toU32 e % 4294967296 = toU32 e := Nat.mod_eq_of_lt (toU32_lt e)
  have hrm : toU32 r % 4294967296 = toU32 r := Nat.mod_eq_of_lt (toU32_lt r)
  unfold atomic_compareandswap __cmpxchg
  simp only [h4, hcm, hem, hrm]
  by_cases hce : c = e
  · subst hce
    simp [ofU32_toU32 _ hc, ofU32_toU32 _ hr]
  · have hne : toU32 c ≠ toU32 e := fun h => hce (toU32_inj c e hc he h)
    simp [hne, hce, ofU32_toU32 _ hc]

/-- C1: on a counter holding `c`, `atomic_compareandswap(e, r, v)` returns `c`,
the value observed before the operation; afterwards the counter holds `r` if
`c == e` and still holds `c` if `c != e`; so the store took place exactly when
the returned value equals `e`. -/
theorem atomic_compareandswap_contract (e r c : Int) (hc : InRange c) (he : InRange e)
    (hr : InRange r) :
    (atomic_compareandswap { counter := e } { counter := r } { counter := c }).1.counter = c
    ∧ (c = e →
        (atomic_compareandswap { counter := e } { counter := r } { counter := c }).2.counter = r)
    ∧ (c ≠ e →
        (atomic_compareandswap { counter := e } { counter := r } { counter := c }).2.counter = c)
    ∧ ((atomic_compareandswap { counter := e } { counter := r } { counter := c }).1.counter = e
        ↔ c = e) := by
  rw [atomic_compareandswap_eq e r c hc he hr]
  refine ⟨rfl, ?_, ?_, Iff.rfl⟩
  · intro h; simp [h]
  · intro h; simp [h]

/-- Witness for C1: expected 5, replacement 9, counter holding 5. -/
theorem atomic_compareandswap_contract_witness :
    InRange 5 ∧ InRange 5 ∧ InRange 9
    ∧ (atomic_compareandswap { counter := 5 } { counter := 9 } { counter := 5 }).1.counter = 5
    ∧ ((5 : Int) = 5 →
        (atomic_compareandswap { counter := 5 } { counter := 9 } { counter := 5 }).2.counter = 9)
    ∧ ((5 : Int) ≠ 5 →
        (atomic_compareandswap { counter := 5 } { counter := 9 } { counter := 5 }).2.counter = 5)
    ∧ ((atomic_compareandswap { counter := 5 } { counter := 9 } { counter := 5 }).1.counter = 5
        ↔ (5 : Int) = 5) :=
  ⟨by decide, by decide, by decide,
    atomic_compareandswap_contract 5 9 5 (by decide) (by decide) (by decide)⟩

/-- C2: for `e != r`, on a counter holding `e`, a first
`atomic_compareandswap(e, r, v)` returns `e` and leaves the counter at `r`; a
second identical call returns `r`, a mismatch, and leaves the counter at `r`. -/
theorem atomic_compareandswap_twice (e r : Int) (he : InRange e) (hr : InRange r)
    (hne : e ≠ r) :
    (atomic_compareandswap { counter := e } { counter := r } { counter := e }).1.counter = e
    ∧ (atomic_compareandswap { counter := e } { counter := r } { counter := e }).2.counter = r
    ∧ (atomic_compareandswap { counter := e } { counter := r }
        (atomic_compareandswap { counter := e } { counter := r } { counter := e }).2).1.counter = r
    ∧ (atomic_compareandswap { counter := e } { counter := r }
        (atomic_compareandswap { counter := e } { counter := r } { counter := e }).2).1.counter ≠ e
    ∧ (atomic_compareandswap { counter := e } { counter := r }
        (atomic_compareandswap { counter := e } { counter := r } { counter := e }).2).2.counter
        = r := by
  have h1 : atomic_compareandswap { counter := e } { counter := r } { counter := e }
      = ({ counter := e }, { counter := r }) := by
    rw [atomic_compareandswap_eq e r e he he hr]; simp
  have h2 : atomic_compareandswap { counter := e } { counter := r } { counter := r }
      = ({ counter := r }, { counter := r }) := by
    rw [atomic_compareandswap_eq e r r hr he hr]; simp
  rw [h1]
  show e = e ∧ r = r
    ∧ (atomic_compareandswap { counter := e } { counter := r } { counter := r }).1.counter = r
    ∧ (atomic_compareandswap { counter := e } { counter := r } { counter := r }).1.counter ≠ e
    ∧ (atomic_compareandswap { counter := e } { counter := r } { counter := r }).2.counter = r
  rw [h2]
  exact ⟨rfl, rfl, rfl, fun h => hne h.symm, rfl⟩

/-- Witness for C2: `e = 5`, `r = 9`, counter initially 5. -/
theorem atomic_compareandswap_twice_witness :
    InRange 5 ∧ InRange 9 ∧ (5 : Int) ≠ 9
    ∧ (atomic_compareandswap { counter := 5 } { counter := 9 } { counter := 5 }).1.counter = 5
    ∧ (atomic_compareandswap { counter := 5 } { counter := 9 } { counter := 5 }).2.counter = 9
    ∧ (atomic_compareandswap { counter := 5 } { counter := 9 }
        (atomic_compareandswap { counter := 5 } { counter := 9 } { counter := 5 }).2).1.counter = 9
    ∧ (atomic_compareandswap { counter := 5 } { counter := 9 }
        (atomic_compareandswap { counter := 5 } { counter := 9 } { counter := 5 }).2).1.counter ≠ 5
    ∧ (atomic_compareandswap { counter := 5 } { counter := 9 }
        (atomic_compareandswap { counter := 5 } { counter := 9 } { counter := 5 }).2).2.counter
        = 9 :=
  ⟨by decide, by decide, by decide,
    atomic_compareandswap_twice 5 9 (by decide) (by decide) (by decide)⟩

/-! ## Testing variants -/

/-- C3: `atomic_dec_and_test(v)` sets the counter to `c - 1` wrapped to 32 bits
and returns non-zero exactly when that post-decrement value is 0, that is
exactly when `c == 1`; it returns true for 1 -> 0 and false for 0 -> -1. -/
theorem atomic_dec_and_test_contract (v : atomic_t) (hc : InRange v.counter) :
    (atomic_dec_and_test v).2.counter = wrap32 (v.counter - 1)
    ∧ ((atomic_dec_and_test v).1 ≠ 0 ↔ (atomic_dec_and_test v).2.counter = 0)
    ∧ ((atomic_dec_and_test v).1 ≠ 0 ↔ v.counter = 1)
    ∧ atomic_dec_and_test { counter := 1 } = (1, { counter := 0 })
    ∧ atomic_dec_and_test { counter := 0 } = (0, { counter := -1 }) := by
  unfold InRange INT_MIN INT_MAX at hc
  rw [atomic_dec_and_test_eq]
  refine ⟨rfl, ?_, ?_, by decide, by decide⟩
  · show (if wrap32 (v.counter - 1) = 0 then (1 : Int) else 0) ≠ 0 ↔ wrap32 (v.counter - 1) = 0
    split <;> simp [*]
  · show (if wrap32 (v.counter - 1) = 0 then (1 : Int) else 0) ≠ 0 ↔ v.counter = 1
    split <;> rename_i h <;> rw [wrap32_eq_zero_iff] at h <;> simp <;> omega

/-- Witness for C3: the counter holds 1. -/
theorem atomic_dec_and_test_contract_witness :
    InRange (atomic_t.mk 1).counter
    ∧ (atomic_dec_and_test { counter := 1 }).2.counter = wrap32 ((atomic_t.mk 1).counter - 1)
    ∧ ((atomic_dec_and_test { counter := 1 }).1 ≠ 0
        ↔ (atomic_dec_and_test { counter := 1 }).2.counter = 0)
    ∧ ((atomic_dec_and_test { counter := 1 }).1 ≠ 0 ↔ (atomic_t.mk 1).counter = 1)
    ∧ atomic_dec_and_test { counter := 1 } = (1, { counter := 0 })
    ∧ atomic_dec_and_test { counter := 0 } = (0, { counter := -1 }) :=
  ⟨by decide, atomic_dec_and_test_contract { counter := 1 } (by decide)⟩

/-- C4: `atomic_inc_and_test(v)` sets the counter to `c + 1` wrapped to 32 bits
and returns non-zero exactly when that post-increment value is 0, that is
exactly when `c == -1`; it returns true for -1 -> 0 and false for
INT_MAX -> INT_MIN. -/
theorem atomic_inc_and_test_contract (v : atomic_t) (hc : InRange v.counter) :
    (atomic_inc_and_test v).2.counter = wrap32 (v.counter + 1)
    ∧ ((atomic_inc_and_test v).1 ≠ 0 ↔ (atomic_inc_and_test v).2.counter = 0)
    ∧ ((atomic_inc_and_test v).1 ≠ 0 ↔ v.counter = -1)
    ∧ atomic_inc_and_test { counter := -1 } = (1, { counter := 0 })
    ∧ atomic_inc_and_test { counter := INT_MAX } = (0, { counter := INT_MIN }) := by
  unfold InRange INT_MIN INT_MAX at hc
  rw [atomic_inc_and_test_eq]
  refine ⟨rfl, ?_, ?_, by decide, by decide⟩
  · show (if wrap32 (v.counter + 1) = 0 then (1 : Int) else 0) ≠ 0 ↔ wrap32 (v.counter + 1) = 0
    split <;> simp [*]
  · show (if wrap32 (v.counter + 1) = 0 then (1 : Int) else 0) ≠ 0 ↔ v.counter = -1
    split <;> rename_i h <;> rw [wrap32_eq_zero_iff] at h <;> simp <;> omega

/-- Witness for C4: the counter holds -1. -/
theorem atomic_inc_and_test_contract_witness :
    InRange (atomic_t.mk (-1)).counter
    ∧ (atomic_inc_and_test { counter := -1 }).2.counter
        = wrap32 ((atomic_t.mk (-1)).counter + 1)
    ∧ ((atomic_inc_and_test { counter := -1 }).1 ≠ 0
        ↔ (atomic_inc_and_test { counter := -1 }).2.counter = 0)
    ∧ ((atomic_inc_and_test { counter := -1 }).1 ≠ 0 ↔ (atomic_t.mk (-1)).counter = -1)
    ∧ atomic_inc_and_test { counter := -1 } = (1, { counter := 0 })
    ∧ atomic_inc_and_test { counter := INT_MAX } = (0, { counter := INT_MIN }) :=
  ⟨by decide, atomic_inc_and_test_contract { counter := -1 } (by decide)⟩

/-- C5: `atomic_sub_and_test(i, v)` sets the counter to `c - i` wrapped to 32
bits and returns non-zero if that result is zero and 0 in all other cases,
that is it returns true iff `c == i`. -/
theorem atomic_sub_and_test_contract (i : Int) (v : atomic_t) (hc : InRange v.counter)
    (hi : InRange i) :
    (atomic_sub_and_test i v).2.counter = wrap32 (v.counter - i)
    ∧ ((atomic_sub_and_test i v).2.counter = 0 → (atomic_sub_and_test i v).1 ≠ 0)
    ∧ ((atomic_sub_and_test i v).2.counter ≠ 0 → (atomic_sub_and_test i v).1 = 0)
    ∧ ((atomic_sub_and_test i v).1 ≠ 0 ↔ v.counter = i) := by
  unfold InRange INT_MIN INT_MAX at hc hi
  rw [atomic_sub_and_test_eq]
  refine ⟨rfl, ?_, ?_, ?_⟩
  · show wrap32 (v.counter - i) = 0 → (if wrap32 (v.counter - i) = 0 then (1 : Int) else 0) ≠ 0
    intro h; simp [h]
  · show wrap32 (v.counter - i) ≠ 0 → (if wrap32 (v.counter - i) = 0 then (1 : Int) else 0) = 0
    intro h; simp [h]
  · show (if wrap32 (v.counter - i) = 0 then (1 : Int) else 0) ≠ 0 ↔ v.counter = i
    split <;> rename_i h <;> rw [wrap32_eq_zero_iff] at h <;> simp <;> omega

/-- Witness for C5: subtracting 7 from a counter holding 7. -/
theorem atomic_sub_and_test_contract_witness :
    InRange (atomic_t.mk 7).counter ∧ InRange 7
    ∧ (atomic_sub_and_test 7 { counter := 7 }).2.counter = wrap32 ((atomic_t.mk 7).counter - 7)
    ∧ ((atomic_sub_and_test 7 { counter := 7 }).2.counter = 0
        → (atomic_sub_and_test 7 { counter := 7 }).1 ≠ 0)
    ∧ ((atomic_sub_and_test 7 { counter := 7 }).2.counter ≠ 0
        → (atomic_sub_and_test 7 { counter := 7 }).1 = 0)
    ∧ ((atomic_sub_and_test 7 { counter := 7 }).1 ≠ 0 ↔ (atomic_t.mk 7).counter = 7) :=
  ⟨by decide, by decide, atomic_sub_and_test_contract 7 { counter := 7 } (by decide) (by decide)⟩

/-- The sign bit of the stored word is set exactly when the `int` is negative. -/
theorem testBit_toU32 (x : Int) (h : InRange x) : (toU32 x).testBit 31 = true ↔ x < 0 := by
  unfold InRange INT_MIN INT_MAX at h
  rw [Nat.testBit_to_div_mod]
  unfold toU32
  simp only [decide_eq_true_eq]
  norm_num
  omega

/-- C6: `atomic_add_negative(i, v)` sets the counter to `c + i` wrapped to 32
bits and returns non-zero iff that stored result is negative (its sign bit is
set), and 0 when the stored result is greater than or equal to zero. -/
theorem atomic_add_negative_contract (i : Int) (v : atomic_t) :
    (atomic_add_negative i v).2.counter = wrap32 (v.counter + i)
    ∧ ((atomic_add_negative i v).1 ≠ 0 ↔ (atomic_add_negative i v).2.counter < 0)
    ∧ ((atomic_add_negative i v).1 ≠ 0
        ↔ (toU32 (atomic_add_negative i v).2.counter).testBit 31 = true)
    ∧ ((atomic_add_negative i v).1 = 0 ↔ 0 ≤ (atomic_add_negative i v).2.counter) := by
  rw [atomic_add_negative_eq]
  refine ⟨rfl, ?_, ?_, ?_⟩
  · show (if wrap32 (v.counter + i) < 0 then (1 : Int) else 0) ≠ 0 ↔ wrap32 (v.counter + i) < 0
    split <;> simp [*]
  · show (if wrap32 (v.counter + i) < 0 then (1 : Int) else 0) ≠ 0
      ↔ (toU32 (wrap32 (v.counter + i))).testBit 31 = true
    rw [testBit_toU32 _ (wrap32_inRange _)]
    split <;> simp [*]
  · show (if wrap32 (v.counter + i) < 0 then (1 : Int) else 0) = 0 ↔ 0 ≤ wrap32 (v.counter + i)
    split <;> rename_i h <;> simp <;> omega

/-- C7, as the code has it: for 32-bit `v.value` and `i`,
`atomic_add_negative(i, v)` returns true iff the sum wrapped to 32 bits is
negative; this is `v.value + i < 0` whenever the integer sum fits in an `int`,
while a sum above INT_MAX gives true and a sum below INT_MIN gives false. -/
theorem atomic_add_negative_sum (i : Int) (v : atomic_t) (hc : InRange v.counter)
    (hi : InRange i) :
    ((atomic_add_negative i v).1 ≠ 0 ↔ wrap32 (v.counter + i) < 0)
    ∧ (InRange (v.counter + i) → ((atomic_add_negative i v).1 ≠ 0 ↔ v.counter + i < 0))
    ∧ (INT_MAX < v.counter + i → (atomic_add_negative i v).1 ≠ 0)
    ∧ (v.counter + i < INT_MIN → (atomic_add_negative i v).1 = 0) := by
  rw [atomic_add_negative_eq]
  show ((if wrap32 (v.counter + i) < 0 then (1 : Int) else 0) ≠ 0 ↔ wrap32 (v.counter + i) < 0)
    ∧ (InRange (v.counter + i)
        → ((if wrap32 (v.counter + i) < 0 then (1 : Int) else 0) ≠ 0 ↔ v.counter + i < 0))
    ∧ (INT_MAX < v.counter + i → (if wrap32 (v.counter + i) < 0 then (1 : Int) else 0) ≠ 0)
    ∧ (v.counter + i < INT_MIN → (if wrap32 (v.counter + i) < 0 then (1 : Int) else 0) = 0)
  refine ⟨?_, ?_, ?_, ?_⟩
  · split <;> simp [*]
  · intro hs
    rw [wrap32_of_inRange _ hs]
    split <;> simp [*]
  · intro hs
    unfold InRange INT_MIN INT_MAX at hc hi
    unfold INT_MAX at hs
    have h : wrap32 (v.counter + i) < 0 := by unfold wrap32; omega
    simp [h]
  · intro hs
    unfold InRange INT_MIN INT_MAX at hc hi
    unfold INT_MIN at hs
    have h : ¬ wrap32 (v.counter + i) < 0 := by unfold wrap32; omega
    simp [h]

/-- Witness for C7 as amended: adding -1 to a counter holding INT_MIN + 1. -/
theorem atomic_add_negative_sum_witness :
    InRange (atomic_t.mk (-2147483647)).counter ∧ InRange (-1)
    ∧ ((atomic_add_negative (-1) { counter := -2147483647 }).1 ≠ 0
        ↔ wrap32 ((atomic_t.mk (-2147483647)).counter + -1) < 0)
    ∧ (InRange ((atomic_t.mk (-2147483647)).counter + -1)
        → ((atomic_add_negative (-1) { counter := -2147483647 }).1 ≠ 0
            ↔ (atomic_t.mk (-2147483647)).counter + -1 < 0))
    ∧ (INT_MAX < (atomic_t.mk (-2147483647)).counter + -1
        → (atomic_add_negative (-1) { counter := -2147483647 }).1 ≠ 0)
    ∧ ((atomic_t.mk (-2147483647)).counter + -1 < INT_MIN
        → (atomic_add_negative (-1) { counter := -2147483647 }).1 = 0) :=
  ⟨by decide, by decide,
    atomic_add_negative_sum (-1) { counter := -2147483647 } (by decide) (by decide)⟩

/-- C7 as stated fails on boundary values: INT_MAX + INT_MAX is a positive
integer sum yet the call returns 1, and INT_MIN + (-1) is a negative integer
sum yet the call returns 0. -/
theorem atomic_add_negative_sum_counterexample :
    InRange INT_MAX ∧ InRange INT_MIN ∧ InRange (-1)
    ∧ atomic_add_negative INT_MAX { counter := INT_MAX } = (1, { counter := -2 })
    ∧ ¬ ((atomic_add_negative INT_MAX { counter := INT_MAX }).1 ≠ 0 ↔ INT_MAX + INT_MAX < 0)
    ∧ atomic_add_negative (-1) { counter := INT_MIN } = (0, { counter := INT_MAX })
    ∧ ¬ ((atomic_add_negative (-1) { counter := INT_MIN }).1 ≠ 0 ↔ INT_MIN + -1 < 0) := by
  decide

/-! ## Plain arithmetic on the counter -/

/-- C8: `atomic_add(i, v)` leaves the counter at `(c + i) mod 2^32` and
`atomic_sub(i, v)` at `(c - i) mod 2^32`, read as two's-complement signed
values, and `atomic_inc` / `atomic_dec` do the same with `i = 1`; every input
produces a result (the operations are total): `atomic_inc` on INT_MAX yields
INT_MIN and `atomic_sub(INT_MIN)` on 0 yields INT_MIN. -/
theorem atomic_arith_wraps (i : Int) (v : atomic_t) :
    ((atomic_add i v).counter = wrap32 (v.counter + i)
      ∧ InRange (atomic_add i v).counter
      ∧ ((atomic_add i v).counter - (v.counter + i)) % 4294967296 = 0)
    ∧ ((atomic_sub i v).counter = wrap32 (v.counter - i)
      ∧ InRange (atomic_sub i v).counter
      ∧ ((atomic_sub i v).counter - (v.counter - i)) % 4294967296 = 0)
    ∧ (atomic_inc v = atomic_add 1 v ∧ (atomic_inc v).counter = wrap32 (v.counter + 1))
    ∧ (atomic_dec v = atomic_sub 1 v ∧ (atomic_dec v).counter = wrap32 (v.counter - 1))
    ∧ atomic_inc { counter := INT_MAX } = { counter := INT_MIN }
    ∧ atomic_sub INT_MIN { counter := 0 } = { counter := INT_MIN } := by
  have ha : (atomic_add i v).counter = wrap32 (v.counter + i) := by
    simp only [atomic_add, addl_val]
  have hs : (atomic_sub i v).counter = wrap32 (v.counter - i) := by
    simp only [atomic_sub, subl_val]
  have hinc : (atomic_inc v).counter = wrap32 (v.counter + 1) := by
    simp only [atomic_inc, incl_val]
  have hdec : (atomic_dec v).counter = wrap32 (v.counter - 1) := by
    simp only [atomic_dec, decl_val]
  have ha1 : (atomic_add 1 v).counter = wrap32 (v.counter + 1) := by
    simp only [atomic_add, addl_val]
  have hs1 : (atomic_sub 1 v).counter = wrap32 (v.counter - 1) := by
    simp only [atomic_sub, subl_val]
  refine ⟨⟨ha, ?_, ?_⟩, ⟨hs, ?_, ?_⟩, ⟨?_, hinc⟩, ⟨?_, hdec⟩, by decide, by decide⟩
  · rw [ha]; exact wrap32_inRange _
  · rw [ha]; exact wrap32_congr _
  · rw [hs]; exact wrap32_inRange _
  · rw [hs]; exact wrap32_congr _
  · cases hv : atomic_inc v with
    | mk a =>
      cases hw : atomic_add 1 v with
      | mk b =>
        rw [hv] at hinc; rw [hw] at ha1
        simp only at hinc ha1
        rw [hinc, ha1]
  · cases hv : atomic_dec v with
    | mk a =>
      cases hw : atomic_sub 1 v with
      | mk b =>
        rw [hv] at hdec; rw [hw] at hs1
        simp only at hdec hs1
        rw [hdec, hs1]

/-! ## 64-bit emulation path -/

theorem join64_halves (x : Nat) (h : IsU64 x) : join64 (hi32 x) (lo32 x) = x := by
  unfold IsU64 at h
  unfold join64 hi32 lo32
  omega

theorem halves_eq_iff (x y : Nat) (hx : IsU64 x) (hy : IsU64 y) :
    (hi32 x = hi32 y ∧ lo32 x = lo32 y) ↔ x = y := by
  constructor
  · intro h
    rw [← join64_halves x hx, ← join64_halves y hy, h.1, h.2]
  · intro h
    subst h
    exact ⟨rfl, rfl⟩

/-- One 8-byte compare-exchange on 64-bit values: the value observed comes
back, and the cell takes `new` exactly when it held `old`. -/
theorem cmpxchg8b_eq (mem old new : Nat) (hm : IsU64 mem) (ho : IsU64 old) (hn : IsU64 new) :
    __cmpxchg8b mem old new = (mem, if mem = old then new else mem) := by
  unfold __cmpxchg8b raw_cmpxchg8
  by_cases h : mem = old
  · subst h
    simp [join64_halves _ hm, join64_halves _ hn]
  · have h2 : ¬ (hi32 mem = hi32 old ∧ lo32 mem = lo32 old) :=
      fun hh => h ((halves_eq_iff mem old hm ho).1 hh)
    simp only [h2, h, if_false]
    rw [join64_halves _ hm]

/-- C9: on the 32-bit emulation path, for every 64-bit `x` stored at `addr`,
`atomic_read64(addr)`, an 8-byte compare-and-swap with expected 0 and
replacement 0, returns exactly `x` and leaves the memory equal to `x`; the
compare succeeds exactly when `x == 0`, and then 0 is written back. -/
theorem atomic_read64_snapshot (x : Nat) (hx : IsU64 x) :
    atomic_read64 x = (x, x)
    ∧ ((raw_cmpxchg8 x (hi32 0) (lo32 0) (hi32 0) (lo32 0)).ZF = true ↔ x = 0)
    ∧ (raw_cmpxchg8 x (hi32 0) (lo32 0) (hi32 0) (lo32 0)).mem = x := by
  have h0 : IsU64 0 := by decide
  have hr : atomic_read64 x = (x, x) := by
    unfold atomic_read64
    rw [cmpxchg8b_eq x 0 0 hx h0 h0]
    by_cases h : x = 0
    · simp [h]
    · simp [h]
  have hmem : (__cmpxchg8b x 0 0).2 = x := by
    have := hr
    unfold atomic_read64 at this
    rw [this]
  refine ⟨hr, ?_, hmem⟩
  unfold raw_cmpxchg8
  by_cases h : x = 0
  · subst h
    simp
  · have h2 : ¬ (hi32 x = hi32 0 ∧ lo32 x = lo32 0) :=
      fun hh => h ((halves_eq_iff x 0 hx h0).1 hh)
    simp [h2, h]

/-- Witness for C9: the cell holds 0xFFFFFFFF00000001. -/
theorem atomic_read64_snapshot_witness :
    IsU64 0xFFFFFFFF00000001
    ∧ atomic_read64 0xFFFFFFFF00000001 = (0xFFFFFFFF00000001, 0xFFFFFFFF00000001)
    ∧ ((raw_cmpxchg8 0xFFFFFFFF00000001 (hi32 0) (lo32 0) (hi32 0) (lo32 0)).ZF = true
        ↔ 0xFFFFFFFF00000001 = 0)
    ∧ (raw_cmpxchg8 0xFFFFFFFF00000001 (hi32 0) (lo32 0) (hi32 0) (lo32 0)).mem
        = 0xFFFFFFFF00000001 :=
  ⟨by decide, atomic_read64_snapshot 0xFFFFFFFF00000001 (by decide)⟩

/-- C10: on the 32-bit emulation path with no other writer, for every initial
64-bit content of `addr` and every 64-bit `val`, `atomic_write64(addr, val)`
terminates (any bound of at least one attempt is enough) with the memory equal
to `val`, and an immediately following `atomic_read64(addr)` returns exactly
`val`, both halves, leaving the memory at `val`. -/
theorem atomic_write64_then_read64 (fuel mem val : Nat) (hm : IsU64 mem) (hv : IsU64 val)
    (hf : 1 ≤ fuel) :
    atomic_write64 fuel mem val = some val
    ∧ atomic_read64 val = (val, val)
    ∧ hi32 (atomic_read64 val).1 = hi32 val
    ∧ lo32 (atomic_read64 val).1 = lo32 val := by
  have hr : atomic_read64 val = (val, val) := by
    have h0 : IsU64 0 := by decide
    unfold atomic_read64
    rw [cmpxchg8b_eq val 0 0 hv h0 h0]
    by_cases h : val = 0
    · simp [h]
    · simp [h]
  refine ⟨?_, hr, by rw [hr], by rw [hr]⟩
  obtain ⟨k, rfl⟩ : ∃ k, fuel = k + 1 := ⟨fuel - 1, by omega⟩
  unfold atomic_write64
  simp only [atomic_write64_loop, cmpxchg8b_eq mem mem val hm hm hv]
  simp

/-- Witness for C10: writing 0xFFFFFFFF00000001 over a cell holding 7. -/
theorem atomic_write64_then_read64_witness :
    IsU64 7 ∧ IsU64 0xFFFFFFFF00000001 ∧ 1 ≤ 3
    ∧ atomic_write64 3 7 0xFFFFFFFF00000001 = some 0xFFFFFFFF00000001
    ∧ atomic_read64 0xFFFFFFFF00000001 = (0xFFFFFFFF00000001, 0xFFFFFFFF00000001)
    ∧ hi32 (atomic_read64 0xFFFFFFFF00000001).1 = hi32 0xFFFFFFFF00000001
    ∧ lo32 (atomic_read64 0xFFFFFFFF00000001).1 = lo32 0xFFFFFFFF00000001 :=
  ⟨by decide, by decide, by decide,
    atomic_write64_then_read64 3 7 0xFFFFFFFF00000001 (by decide) (by decide) (by decide)⟩

/-! ## Accessors -/

theorem movl_toU32 (x : Int) : movl (toU32 x) = toU32 x := by
  unfold movl
  exact Nat.mod_eq_of_lt (toU32_lt x)

theorem atomic_read_int_eq (x : Int) (h : InRange x) : atomic_read_int x = x := by
  unfold atomic_read_int
  rw [movl_toU32, ofU32_toU32 x h]

theorem atomic_write_int_eq (a x : Int) (h : InRange x) : atomic_write_int a x = x := by
  unfold atomic_write_int
  rw [movl_toU32, ofU32_toU32 x h]

/-- C12: for every `atomic_t v` and every `int i`, after `atomic_set(v, i)` both
`atomic_read(v)` and `_atomic_read(*v)` return `i`, and after
`_atomic_set(*v, i)` both return `i` as well; the fast accessors and the atomic
ones leave and read the same storage, and `ATOMIC_INIT(i)` reads as `i`. -/
theorem atomic_accessors_agree (v : atomic_t) (i : Int) (hv : InRange v.counter)
    (hi : InRange i) :
    (atomic_read (atomic_set v i) = i ∧ _atomic_read (atomic_set v i) = i)
    ∧ (atomic_read (_atomic_set v i) = i ∧ _atomic_read (_atomic_set v i) = i)
    ∧ atomic_set v i = _atomic_set v i
    ∧ atomic_read v = _atomic_read v
    ∧ (atomic_read (ATOMIC_INIT i) = i ∧ _atomic_read (ATOMIC_INIT i) = i) := by
  have hs : atomic_set v i = { counter := i } := by
    unfold atomic_set
    rw [atomic_write_int_eq _ i hi]
  have hr : ∀ x : Int, InRange x → atomic_read { counter := x } = x := by
    intro x hx
    unfold atomic_read
    exact atomic_read_int_eq x hx
  have hrv : atomic_read v = v.counter := by
    unfold atomic_read
    exact atomic_read_int_eq _ hv
  rw [hs]
  unfold _atomic_set ATOMIC_INIT _atomic_read
  exact ⟨⟨hr i hi, rfl⟩, ⟨hr i hi, rfl⟩, rfl, hrv, hr i hi, rfl⟩

/-- Witness for C12: storing INT_MIN into a counter holding 3. -/
theorem atomic_accessors_agree_witness :
    InRange (atomic_t.mk 3).counter ∧ InRange (-2147483648)
    ∧ (atomic_read (atomic_set { counter := 3 } (-2147483648)) = -2147483648
        ∧ _atomic_read (atomic_set { counter := 3 } (-2147483648)) = -2147483648)
    ∧ (atomic_read (_atomic_set { counter := 3 } (-2147483648)) = -2147483648
        ∧ _atomic_read (_atomic_set { counter := 3 } (-2147483648)) = -2147483648)
    ∧ atomic_set { counter := 3 } (-2147483648) = _atomic_set { counter := 3 } (-2147483648)
    ∧ atomic_read { counter := 3 } = _atomic_read { counter := 3 }
    ∧ (atomic_read (ATOMIC_INIT (-2147483648)) = -2147483648
        ∧ _atomic_read (ATOMIC_INIT (-2147483648)) = -2147483648) :=
  ⟨by decide, by decide,
    atomic_accessors_agree { counter := 3 } (-2147483648) (by decide) (by decide)⟩

/-! ## Algebra of the plain operations -/

theorem atomic_add_eq (i : Int) (v : atomic_t) :
    atomic_add i v = { counter := wrap32 (v.counter + i) } := by
  simp only [atomic_add, addl_val]

theorem atomic_sub_eq (i : Int) (v : atomic_t) :
    atomic_sub i v = { counter := wrap32 (v.counter - i) } := by
  simp only [atomic_sub, subl_val]

theorem atomic_inc_eq (v : atomic_t) :
    atomic_inc v = { counter := wrap32 (v.counter + 1) } := by
  simp only [atomic_inc, incl_val]

theorem atomic_dec_eq (v : atomic_t) :
    atomic_dec v = { counter := wrap32 (v.counter - 1) } := by
  simp only [atomic_dec, decl_val]

theorem wrap32_sub_add (c i : Int) (h : InRange c) : wrap32 (wrap32 (c + i) - i) = c := by
  unfold InRange INT_MIN INT_MAX at h
  unfold wrap32
  omega

theorem wrap32_add_neg (c i : Int) : wrap32 (c + wrap32 (-i)) = wrap32 (c - i) := by
  unfold wrap32
  omega

/-- C15: for every 32-bit `c` and `i` (INT_MIN and overflowing results
included), `atomic_add(i, v)` followed by `atomic_sub(i, v)` restores the
counter to `c`, and `atomic_inc(v)` followed by `atomic_dec(v)` restores it;
`atomic_sub(i, v)` leaves the same counter as `atomic_add` of the
two's-complement negation of `i`. -/
theorem atomic_add_sub_inverse (i : Int) (v : atomic_t) (hc : InRange v.counter)
    (hi : InRange i) :
    atomic_sub i (atomic_add i v) = v
    ∧ atomic_dec (atomic_inc v) = v
    ∧ atomic_sub i v = atomic_add (wrap32 (-i)) v
    ∧ InRange (wrap32 (-i))
    ∧ (i ≠ INT_MIN → wrap32 (-i) = -i)
    ∧ (i = INT_MIN → wrap32 (-i) = INT_MIN) := by
  refine ⟨?_, ?_, ?_, wrap32_inRange _, ?_, ?_⟩
  · rw [atomic_add_eq, atomic_sub_eq]
    show atomic_t.mk (wrap32 (wrap32 (v.counter + i) - i)) = v
    rw [wrap32_sub_add _ _ hc]
  · rw [atomic_inc_eq, atomic_dec_eq]
    show atomic_t.mk (wrap32 (wrap32 (v.counter + 1) - 1)) = v
    rw [wrap32_sub_add _ _ hc]
  · rw [atomic_add_eq, atomic_sub_eq, wrap32_add_neg]
  · intro hne
    unfold InRange INT_MIN INT_MAX at hi
    unfold INT_MIN at hne
    unfold wrap32
    omega
  · intro he
    subst he
    decide

/-- Witness for C15: adding and subtracting INT_MIN on a counter holding -1. -/
theorem atomic_add_sub_inverse_witness :
    InRange (atomic_t.mk (-1)).counter ∧ InRange (-2147483648)
    ∧ atomic_sub (-2147483648) (atomic_add (-2147483648) { counter := -1 }) = { counter := -1 }
    ∧ atomic_dec (atomic_inc { counter := -1 }) = { counter := -1 }
    ∧ atomic_sub (-2147483648) { counter := -1 }
        = atomic_add (wrap32 (- -2147483648)) { counter := -1 }
    ∧ InRange (wrap32 (- -2147483648))
    ∧ ((-2147483648 : Int) ≠ INT_MIN → wrap32 (- -2147483648) = - -2147483648)
    ∧ ((-2147483648 : Int) = INT_MIN → wrap32 (- -2147483648) = INT_MIN) :=
  ⟨by decide, by decide,
    atomic_add_sub_inverse (-2147483648) { counter := -1 } (by decide) (by decide)⟩

theorem sete_le_one (f : EFlags) : sete f = 0 ∨ sete f = 1 := by
  unfold sete
  split
  · exact Or.inr rfl
  · exact Or.inl rfl

theorem sets_le_one (f : EFlags) : sets f = 0 ∨ sets f = 1 := by
  unfold sets
  split
  · exact Or.inr rfl
  · exact Or.inl rfl

/-- C16: each testing variant changes the counter exactly as its non-testing
counterpart does: `atomic_sub_and_test` as `atomic_sub`, `atomic_add_negative`
as `atomic_add`, `atomic_inc_and_test` as `atomic_inc` and `atomic_add(1, v)`,
`atomic_dec_and_test` as `atomic_dec` and `atomic_sub(1, v)`; and the `int`
each testing variant returns is exactly 0 or 1. -/
theorem testing_variants_refine (i : Int) (v : atomic_t) :
    (atomic_sub_and_test i v).2 = atomic_sub i v
    ∧ (atomic_add_negative i v).2 = atomic_add i v
    ∧ ((atomic_inc_and_test v).2 = atomic_inc v ∧ (atomic_inc_and_test v).2 = atomic_add 1 v)
    ∧ ((atomic_dec_and_test v).2 = atomic_dec v ∧ (atomic_dec_and_test v).2 = atomic_sub 1 v)
    ∧ ((atomic_sub_and_test i v).1 = 0 ∨ (atomic_sub_and_test i v).1 = 1)
    ∧ ((atomic_add_negative i v).1 = 0 ∨ (atomic_add_negative i v).1 = 1)
    ∧ ((atomic_inc_and_test v).1 = 0 ∨ (atomic_inc_and_test v).1 = 1)
    ∧ ((atomic_dec_and_test v).1 = 0 ∨ (atomic_dec_and_test v).1 = 1) := by
  rw [atomic_sub_and_test_eq, atomic_add_negative_eq, atomic_inc_and_test_eq,
    atomic_dec_and_test_eq, atomic_sub_eq, atomic_add_eq, atomic_inc_eq, atomic_dec_eq,
    atomic_add_eq, atomic_sub_eq]
  refine ⟨rfl, rfl, ⟨rfl, rfl⟩, ⟨rfl, rfl⟩, ?_, ?_, ?_, ?_⟩
  · show (if wrap32 (v.counter - i) = 0 then (1 : Int) else 0) = 0
      ∨ (if wrap32 (v.counter - i) = 0 then (1 : Int) else 0) = 1
    split
    · exact Or.inr rfl
    · exact Or.inl rfl
  · show (if wrap32 (v.counter + i) < 0 then (1 : Int) else 0) = 0
      ∨ (if wrap32 (v.counter + i) < 0 then (1 : Int) else 0) = 1
    split
    · exact Or.inr rfl
    · exact Or.inl rfl
  · show (if wrap32 (v.counter + 1) = 0 then (1 : Int) else 0) = 0
      ∨ (if wrap32 (v.counter + 1) = 0 then (1 : Int) else 0) = 1
    split
    · exact Or.inr rfl
    · exact Or.inl rfl
  · show (if wrap32 (v.counter - 1) = 0 then (1 : Int) else 0) = 0
      ∨ (if wrap32 (v.counter - 1) = 0 then (1 : Int) else 0) = 1
    split
    · exact Or.inr rfl
    · exact Or.inl rfl

/-! ## The write loop -/

theorem atomic_write64_loop_hit (fuel mem val : Nat) (hm : IsU64 mem) (hv : IsU64 val) :
    atomic_write64_loop (fuel + 1) mem mem val = some val := by
  simp only [atomic_write64_loop, cmpxchg8b_eq mem mem val hm hm hv]
  simp

theorem atomic_write64_loop_miss (fuel mem old val : Nat) (hm : IsU64 mem) (ho : IsU64 old)
    (hv : IsU64 val) (hne : old ≠ mem) :
    atomic_write64_loop (fuel + 1) mem old val = atomic_write64_loop fuel mem mem val := by
  have h1 : ¬ mem = old := fun h => hne h.symm
  simp only [atomic_write64_loop, cmpxchg8b_eq mem old val hm ho hv]
  simp [h1]

/-- C14: `atomic_write64` does not rely on its initial plain read: for every
memory content `m`, every `val` and every initial guess `old`, with no further
interference the loop ends after exactly one compare-and-swap attempt when
`old == m` and exactly two when `old != m`, hence within any bound of two or
more, and leaves the memory equal to `val`. -/
theorem atomic_write64_loop_two_attempts (m old val : Nat) (hm : IsU64 m) (ho : IsU64 old)
    (hv : IsU64 val) :
    (old = m → atomic_write64_loop 1 m old val = some val)
    ∧ (old ≠ m → atomic_write64_loop 1 m old val = none
        ∧ atomic_write64_loop 2 m old val = some val)
    ∧ (∀ fuel, 2 ≤ fuel → atomic_write64_loop fuel m old val = some val)
    ∧ atomic_write64_loop 0 m old val = none := by
  refine ⟨?_, ?_, ?_, rfl⟩
  · intro h
    subst h
    exact atomic_write64_loop_hit 0 old val ho hv
  · intro h
    constructor
    · rw [atomic_write64_loop_miss 0 m old val hm ho hv h]
      rfl
    · rw [atomic_write64_loop_miss 1 m old val hm ho hv h]
      exact atomic_write64_loop_hit 0 m val hm hv
  · intro fuel hf
    obtain ⟨k, rfl⟩ : ∃ k, fuel = k + 2 := ⟨fuel - 2, by omega⟩
    by_cases h : old = m
    · subst h
      exact atomic_write64_loop_hit (k + 1) old val ho hv
    · rw [atomic_write64_loop_miss (k + 1) m old val hm ho hv h]
      exact atomic_write64_loop_hit k m val hm hv

/-- Witness for C14: a guess made of the high half of one value and the low
half of another, against a cell holding 7. -/
theorem atomic_write64_loop_two_attempts_witness :
    IsU64 7 ∧ IsU64 0xFFFFFFFF00000007 ∧ IsU64 0xFFFFFFFF00000001
    ∧ (0xFFFFFFFF00000007 = 7
        → atomic_write64_loop 1 7 0xFFFFFFFF00000007 0xFFFFFFFF00000001
            = some 0xFFFFFFFF00000001)
    ∧ (0xFFFFFFFF00000007 ≠ 7
        → atomic_write64_loop 1 7 0xFFFFFFFF00000007 0xFFFFFFFF00000001 = none
          ∧ atomic_write64_loop 2 7 0xFFFFFFFF00000007 0xFFFFFFFF00000001
              = some 0xFFFFFFFF00000001)
    ∧ (∀ fuel, 2 ≤ fuel
        → atomic_write64_loop fuel 7 0xFFFFFFFF00000007 0xFFFFFFFF00000001
            = some 0xFFFFFFFF00000001)
    ∧ atomic_write64_loop 0 7 0xFFFFFFFF00000007 0xFFFFFFFF00000001 = none :=
  ⟨by decide, by decide, by decide,
    atomic_write64_loop_two_attempts 7 0xFFFFFFFF00000007 0xFFFFFFFF00000001
      (by decide) (by decide) (by decide)⟩

/-! ## The write loop under interference -/

theorem atomic_write64_attempt_eq (val mem old : Nat) (hv : IsU64 val) (hm : IsU64 mem)
    (ho : IsU64 old) :
    atomic_write64_attempt val (Write64State.attempt mem old)
      = if mem = old then Write64State.done val else Write64State.attempt mem mem := by
  simp only [atomic_write64_attempt, cmpxchg8b_eq mem old val hm ho hv]
  by_cases h : mem = old
  · simp [h]
  · simp [h]

theorem atomic_write64_run_done (val m : Nat) (env : List (Option Nat)) :
    atomic_write64_run val env (Write64State.done m) = Write64State.done m := by
  induction env with
  | nil => rfl
  | cons w ws ih =>
    simp only [atomic_write64_run, env_write, atomic_write64_attempt]
    exact ih

theorem atomic_write64_run_exit (val : Nat) (hv : IsU64 val) (env : List (Option Nat))
    (henv : ∀ w ∈ env, IsU64 (w.getD 0)) :
    ∀ mem old m, IsU64 mem → IsU64 old →
      atomic_write64_run val env (Write64State.attempt mem old) = Write64State.done m →
      m = val := by
  induction env with
  | nil =>
    intro mem old m _ _ h
    simp [atomic_write64_run] at h
  | cons w ws ih =>
    intro mem old m hm ho h
    have hw : IsU64 (w.getD mem) := by
      cases w with
      | none => exact hm
      | some x => exact henv (some x) (List.mem_cons_self _ _)
    have hws : ∀ w ∈ ws, IsU64 (w.getD 0) := fun w hmem => henv w (List.mem_cons_of_mem _ hmem)
    simp only [atomic_write64_run, env_write] at h
    rw [atomic_write64_attempt_eq val _ old hv hw ho] at h
    by_cases hc : w.getD mem = old
    · rw [if_pos hc, atomic_write64_run_done] at h
      exact (Write64State.done.inj h).symm
    · rw [if_neg hc] at h
      exact ih hws _ _ m hw hw h

/-- The environment-free run is the fuel-bounded loop. -/
theorem atomic_write64_run_quiet (val : Nat) (fuel : Nat) :
    ∀ mem old m, atomic_write64_loop fuel mem old val = some m
      ↔ atomic_write64_run val (List.replicate fuel none) (Write64State.attempt mem old)
          = Write64State.done m := by
  induction fuel with
  | zero =>
    intro mem old m
    simp [atomic_write64_loop, atomic_write64_run]
  | succ k ih =>
    intro mem old m
    simp only [atomic_write64_loop, List.replicate_succ, atomic_write64_run, env_write,
      Option.getD_none, atomic_write64_attempt]
    by_cases hc : (__cmpxchg8b mem old val).1 ≠ old
    · rw [if_pos hc, if_pos hc]
      exact ih _ _ m
    · rw [if_neg hc, if_neg hc, atomic_write64_run_done]
      constructor
      · intro h
        rw [Option.some.inj h]
      · intro h
        rw [Write64State.done.inj h]

theorem atomic_write64_run_append (val : Nat) (pre post : List (Option Nat)) :
    ∀ s, atomic_write64_run val (pre ++ post) s
      = atomic_write64_run val post (atomic_write64_run val pre s) := by
  induction pre with
  | nil =>
    intro s
    rfl
  | cons w ws ih =>
    intro s
    simp only [List.cons_append, atomic_write64_run]
    exact ih _

theorem getD_isU64 (w : Option Nat) (m : Nat) (hw : IsU64 (w.getD 0)) (hm : IsU64 m) :
    IsU64 (w.getD m) := by
  cases w with
  | none => exact hm
  | some x => exact hw

/-- One turn of the environment followed by one attempt. -/
theorem atomic_write64_run_one (val m o : Nat) (w : Option Nat) (hv : IsU64 val)
    (hw : IsU64 (w.getD m)) (ho : IsU64 o) :
    atomic_write64_run val [w] (Write64State.attempt m o)
      = if w.getD m = o then Write64State.done val
        else Write64State.attempt (w.getD m) (w.getD m) := by
  simp only [atomic_write64_run, env_write]
  exact atomic_write64_attempt_eq val _ o hv hw ho

/-- While the loop has not been left, the cell and the guess are 64-bit values. -/
theorem atomic_write64_run_wf (val : Nat) (hv : IsU64 val) (pre : List (Option Nat))
    (hpre : ∀ w ∈ pre, IsU64 (w.getD 0)) :
    ∀ mem old m o, IsU64 mem → IsU64 old →
      atomic_write64_run val pre (Write64State.attempt mem old) = Write64State.attempt m o →
      IsU64 m ∧ IsU64 o := by
  induction pre with
  | nil =>
    intro mem old m o hm ho h
    have h2 := Write64State.attempt.inj h
    rw [← h2.1, ← h2.2]
    exact ⟨hm, ho⟩
  | cons w ws ih =>
    intro mem old m o hm ho h
    have hw : IsU64 (w.getD mem) := getD_isU64 w mem (hpre w (List.mem_cons_self _ _)) hm
    have hws : ∀ w ∈ ws, IsU64 (w.getD 0) := fun w hmem => hpre w (List.mem_cons_of_mem _ hmem)
    simp only [atomic_write64_run, env_write] at h
    rw [atomic_write64_attempt_eq val _ old hv hw ho] at h
    by_cases hc : w.getD mem = old
    · rw [if_pos hc, atomic_write64_run_done] at h
      exact absurd h (by simp)
    · rw [if_neg hc] at h
      exact ih hws _ _ m o hw hw h

/-- A run that has left the loop did so right after an attempt that found the
cell equal to the guess. -/
theorem atomic_write64_run_exit_after_hit (val : Nat) (hv : IsU64 val) (env : List (Option Nat))
    (henv : ∀ w ∈ env, IsU64 (w.getD 0)) :
    ∀ mem old m, IsU64 mem → IsU64 old →
      atomic_write64_run val env (Write64State.attempt mem old) = Write64State.done m →
      ∃ (pre : List (Option Nat)) (w : Option Nat) (post : List (Option Nat)) (m1 o1 : Nat),
        env = pre ++ w :: post
        ∧ atomic_write64_run val pre (Write64State.attempt mem old) = Write64State.attempt m1 o1
        ∧ w.getD m1 = o1 := by
  induction env with
  | nil =>
    intro mem old m _ _ h
    simp [atomic_write64_run] at h
  | cons w ws ih =>
    intro mem old m hm ho h
    have hw : IsU64 (w.getD mem) := getD_isU64 w mem (henv w (List.mem_cons_self _ _)) hm
    have hws : ∀ w ∈ ws, IsU64 (w.getD 0) := fun w hmem => henv w (List.mem_cons_of_mem _ hmem)
    by_cases hc : w.getD mem = old
    · exact ⟨[], w, ws, mem, old, rfl, rfl, hc⟩
    · simp only [atomic_write64_run, env_write] at h
      rw [atomic_write64_attempt_eq val _ old hv hw ho, if_neg hc] at h
      obtain ⟨pre, w2, post, m1, o1, he, hr, hh⟩ := ih hws _ _ m hw hw h
      refine ⟨w :: pre, w2, post, m1, o1, ?_, ?_, hh⟩
      · rw [he]
        rfl
      · simp only [atomic_write64_run, env_write]
        rw [atomic_write64_attempt_eq val _ old hv hw ho, if_neg hc]
        exact hr

/-- C13: in `atomic_write64` with other contexts modelled as an environment
that may change the memory between attempts, every failed attempt of the loop
observed a memory value different from `old`, replaces `old` with exactly that
value and does not modify the memory; the loop is left only right after an
attempt whose compare succeeded and which stored `val`, so the memory at exit
is `val`.  The run over any prefix of the environment is fixed attempt by
attempt: no attempt leaves the loop running, a failed attempt keeps it
running, a successful one leaves it, and once left it stays left. -/
theorem atomic_write64_retry_invariant (val mem old : Nat) (env : List (Option Nat))
    (hv : IsU64 val) (hm : IsU64 mem) (ho : IsU64 old) (henv : ∀ w ∈ env, IsU64 (w.getD 0)) :
    (mem ≠ old →
      atomic_write64_attempt val (Write64State.attempt mem old) = Write64State.attempt mem mem
      ∧ __cmpxchg8b mem old val = (mem, mem))
    ∧ (mem = old →
      atomic_write64_attempt val (Write64State.attempt mem old) = Write64State.done val
      ∧ __cmpxchg8b mem old val = (old, val))
    ∧ (∀ m o, atomic_write64_attempt val (Write64State.attempt mem old)
          = Write64State.attempt m o → mem ≠ old ∧ o = mem ∧ m = mem)
    ∧ (∀ m, atomic_write64_attempt val (Write64State.attempt mem old) = Write64State.done m →
          mem = old ∧ m = val)
    ∧ (∀ m, atomic_write64_run val env (Write64State.attempt mem old) = Write64State.done m →
          m = val)
    ∧ atomic_write64_run val [] (Write64State.attempt mem old) = Write64State.attempt mem old
    ∧ (∀ (pre : List (Option Nat)) (w : Option Nat) (post : List (Option Nat)) (m1 o1 : Nat),
        env = pre ++ w :: post →
        atomic_write64_run val pre (Write64State.attempt mem old) = Write64State.attempt m1 o1 →
        (w.getD m1 ≠ o1 →
          atomic_write64_run val (pre ++ [w]) (Write64State.attempt mem old)
            = Write64State.attempt (w.getD m1) (w.getD m1))
        ∧ (w.getD m1 = o1 →
          atomic_write64_run val (pre ++ [w]) (Write64State.attempt mem old) = Write64State.done val
          ∧ atomic_write64_run val env (Write64State.attempt mem old) = Write64State.done val))
    ∧ (∀ (pre : List (Option Nat)) (w : Option Nat) (post : List (Option Nat)) (m : Nat),
        env = pre ++ w :: post →
        atomic_write64_run val pre (Write64State.attempt mem old) = Write64State.done m →
        atomic_write64_run val (pre ++ [w]) (Write64State.attempt mem old) = Write64State.done m)
    ∧ (∀ m, atomic_write64_run val env (Write64State.attempt mem old) = Write64State.done m →
        ∃ (pre : List (Option Nat)) (w : Option Nat) (post : List (Option Nat)) (m1 o1 : Nat),
          env = pre ++ w :: post
          ∧ atomic_write64_run val pre (Write64State.attempt mem old) = Write64State.attempt m1 o1
          ∧ w.getD m1 = o1
          ∧ atomic_write64_run val (pre ++ [w]) (Write64State.attempt mem old) = Write64State.done val) := by
  have hstep : ∀ (pre : List (Option Nat)) (w : Option Nat) (post : List (Option Nat))
      (m1 o1 : Nat), env = pre ++ w :: post →
      atomic_write64_run val pre (Write64State.attempt mem old) = Write64State.attempt m1 o1 →
      atomic_write64_run val (pre ++ [w]) (Write64State.attempt mem old)
        = if w.getD m1 = o1 then Write64State.done val
          else Write64State.attempt (w.getD m1) (w.getD m1) := by
    intro pre w post m1 o1 he hr
    have hpre : ∀ x ∈ pre, IsU64 (x.getD 0) := by
      intro x hx
      exact henv x (by rw [he]; exact List.mem_append_left _ hx)
    have hw0 : IsU64 (w.getD 0) :=
      henv w (by rw [he]; exact List.mem_append_right _ (List.mem_cons_self _ _))
    have hwf := atomic_write64_run_wf val hv pre hpre mem old m1 o1 hm ho hr
    rw [atomic_write64_run_append, hr]
    exact atomic_write64_run_one val m1 o1 w hv (getD_isU64 w m1 hw0 hwf.1) hwf.2
  rw [atomic_write64_attempt_eq val mem old hv hm ho, cmpxchg8b_eq mem old val hm ho hv]
  refine ⟨?_, ?_, ?_, ?_, ?_, rfl, ?_, ?_, ?_⟩
  · intro h
    simp [h]
  · intro h
    simp [h]
  · intro m o h
    by_cases hc : mem = old
    · rw [if_pos hc] at h
      exact absurd h (by simp)
    · rw [if_neg hc] at h
      have h2 := Write64State.attempt.inj h
      exact ⟨hc, h2.2.symm, h2.1.symm⟩
  · intro m h
    by_cases hc : mem = old
    · rw [if_pos hc] at h
      exact ⟨hc, (Write64State.done.inj h).symm⟩
    · rw [if_neg hc] at h
      exact absurd h (by simp)
  · intro m h
    exact atomic_write64_run_exit val hv env henv mem old m hm ho h
  · intro pre w post m1 o1 he hr
    have h1 := hstep pre w post m1 o1 he hr
    constructor
    · intro hc
      rw [h1, if_neg hc]
    · intro hc
      rw [if_pos hc] at h1
      refine ⟨h1, ?_⟩
      have e : env = (pre ++ [w]) ++ post := by
        rw [he]
        simp
      rw [e, atomic_write64_run_append, h1, atomic_write64_run_done]
  · intro pre w post m _ hr
    rw [atomic_write64_run_append, hr, atomic_write64_run_done]
  · intro m h
    obtain ⟨pre, w, post, m1, o1, he, hr, hh⟩ :=
      atomic_write64_run_exit_after_hit val hv env henv mem old m hm ho h
    have h1 := hstep pre w post m1 o1 he hr
    rw [if_pos hh] at h1
    exact ⟨pre, w, post, m1, o1, he, hr, hh, h1⟩

/-- Witness for C13: the guess is 7, another context has written 3 before the
first attempt and nothing afterwards; the first attempt fails and takes 3 as
the new guess, the second succeeds and the loop is left with the cell at 9. -/
theorem atomic_write64_retry_invariant_witness :
    IsU64 9 ∧ IsU64 3 ∧ IsU64 7 ∧ (∀ w ∈ [some 3, none], IsU64 (Option.getD w 0))
    ∧ atomic_write64_run 9 [some 3] (Write64State.attempt 3 7) = Write64State.attempt 3 3
    ∧ atomic_write64_run 9 [some 3, none] (Write64State.attempt 3 7) = Write64State.done 9
    ∧ (3 ≠ 7 →
      atomic_write64_attempt 9 (Write64State.attempt 3 7) = Write64State.attempt 3 3
      ∧ __cmpxchg8b 3 7 9 = (3, 3))
    ∧ (3 = 7 →
      atomic_write64_attempt 9 (Write64State.attempt 3 7) = Write64State.done 9
      ∧ __cmpxchg8b 3 7 9 = (7, 9))
    ∧ (∀ m o, atomic_write64_attempt 9 (Write64State.attempt 3 7)
          = Write64State.attempt m o → 3 ≠ 7 ∧ o = 3 ∧ m = 3)
    ∧ (∀ m, atomic_write64_attempt 9 (Write64State.attempt 3 7) = Write64State.done m →
          3 = 7 ∧ m = 9)
    ∧ (∀ m, atomic_write64_run 9 [some 3, none] (Write64State.attempt 3 7) = Write64State.done m →
          m = 9)
    ∧ atomic_write64_run 9 [] (Write64State.attempt 3 7) = Write64State.attempt 3 7
    ∧ (∀ (pre : List (Option Nat)) (w : Option Nat) (post : List (Option Nat)) (m1 o1 : Nat),
        [some 3, none] = pre ++ w :: post →
        atomic_write64_run 9 pre (Write64State.attempt 3 7) = Write64State.attempt m1 o1 →
        (w.getD m1 ≠ o1 →
          atomic_write64_run 9 (pre ++ [w]) (Write64State.attempt 3 7)
            = Write64State.attempt (w.getD m1) (w.getD m1))
        ∧ (w.getD m1 = o1 →
          atomic_write64_run 9 (pre ++ [w]) (Write64State.attempt 3 7) = Write64State.done 9
          ∧ atomic_write64_run 9 [some 3, none] (Write64State.attempt 3 7) = Write64State.done 9))
    ∧ (∀ (pre : List (Option Nat)) (w : Option Nat) (post : List (Option Nat)) (m : Nat),
        [some 3, none] = pre ++ w :: post →
        atomic_write64_run 9 pre (Write64State.attempt 3 7) = Write64State.done m →
        atomic_write64_run 9 (pre ++ [w]) (Write64State.attempt 3 7) = Write64State.done m)
    ∧ (∀ m, atomic_write64_run 9 [some 3, none] (Write64State.attempt 3 7) = Write64State.done m →
        ∃ (pre : List (Option Nat)) (w : Option Nat) (post : List (Option Nat)) (m1 o1 : Nat),
          [some 3, none] = pre ++ w :: post
          ∧ atomic_write64_run 9 pre (Write64State.attempt 3 7) = Write64State.attempt m1 o1
          ∧ w.getD m1 = o1
          ∧ atomic_write64_run 9 (pre ++ [w]) (Write64State.attempt 3 7) = Write64State.done 9) :=
  ⟨by decide, by decide, by decide, by decide, by decide, by decide,
    atomic_write64_retry_invariant 9 3 7 [some 3, none] (by decide) (by decide) (by decide)
      (by decide)⟩

/-! ## Several contexts on one counter -/

theorem exec_counter (c : CounterCall) (v : atomic_t) :
    (c.exec v).counter = wrap32 (v.counter + c.delta) := by
  cases c with
  | add i => simp only [CounterCall.exec, CounterCall.delta, atomic_add_eq]
  | sub i =>
    simp only [CounterCall.exec, CounterCall.delta, atomic_sub_eq]
    unfold wrap32
    omega
  | inc => simp only [CounterCall.exec, CounterCall.delta, atomic_inc_eq]

theorem wrap32_absorb (a d p : Int) : wrap32 (wrap32 (a + d) + p) = wrap32 (a + (d + p)) := by
  unfold wrap32
  omega

/-- A scheduling step keeps counter plus outstanding deltas unchanged modulo
`2^32`. -/
theorem sched_step_sum (cs : List (List CounterCall)) :
    ∀ (k : Nat) (v : atomic_t) (p : Int),
      wrap32 ((sched_step k cs v).2.counter + (total_delta (sched_step k cs v).1 + p))
        = wrap32 (v.counter + (total_delta cs + p)) := by
  induction cs with
  | nil =>
    intro k v p
    cases k <;> rfl
  | cons l cs ih =>
    intro k v p
    cases k with
    | zero =>
      cases l with
      | nil => rfl
      | cons c rest =>
        simp only [sched_step, total_delta, List.map_cons, List.sum_cons, exec_counter]
        rw [wrap32_absorb]
        congr 1
        omega
    | succ k =>
      simp only [sched_step, total_delta]
      have h := ih k v ((l.map CounterCall.delta).sum + p)
      have e1 : (List.map CounterCall.delta l).sum + total_delta (sched_step k cs v).1 + p
          = total_delta (sched_step k cs v).1 + ((List.map CounterCall.delta l).sum + p) := by
        omega
      have e2 : (List.map CounterCall.delta l).sum + total_delta cs + p
          = total_delta cs + ((List.map CounterCall.delta l).sum + p) := by
        omega
      rw [e1, e2]
      exact h

theorem sched_step_inRange (cs : List (List CounterCall)) :
    ∀ (k : Nat) (v : atomic_t), InRange v.counter → InRange (sched_step k cs v).2.counter := by
  induction cs with
  | nil =>
    intro k v hv
    cases k <;> exact hv
  | cons l cs ih =>
    intro k v hv
    cases k with
    | zero =>
      cases l with
      | nil => exact hv
      | cons c rest =>
        simp only [sched_step, exec_counter]
        exact wrap32_inRange _
    | succ k => exact ih k v hv

theorem run_schedule_sum (sched : List Nat) :
    ∀ (cs : List (List CounterCall)) (v : atomic_t),
      wrap32 ((run_schedule sched cs v).2.counter + total_delta (run_schedule sched cs v).1)
        = wrap32 (v.counter + total_delta cs) := by
  induction sched with
  | nil =>
    intro cs v
    rfl
  | cons k ks ih =>
    intro cs v
    simp only [run_schedule]
    rw [ih]
    have h := sched_step_sum cs k v 0
    simpa using h

theorem run_schedule_inRange (sched : List Nat) :
    ∀ (cs : List (List CounterCall)) (v : atomic_t), InRange v.counter →
      InRange (run_schedule sched cs v).2.counter := by
  induction sched with
  | nil =>
    intro cs v hv
    exact hv
  | cons k ks ih =>
    intro cs v hv
    simp only [run_schedule]
    exact ih _ _ (sched_step_inRange cs k v hv)

theorem total_delta_of_all_issued (cs : List (List CounterCall)) (h : all_issued cs = true) :
    total_delta cs = 0 := by
  induction cs with
  | nil => rfl
  | cons l cs ih =>
    unfold all_issued at h ih
    simp only [List.all_cons, Bool.and_eq_true] at h
    have hl : l = [] := List.isEmpty_iff.mp h.1
    subst hl
    simp [total_delta, ih h.2]

/-- When every call has been issued the counter holds the wrapped sum. -/
theorem run_schedule_final (sched : List Nat) (cs : List (List CounterCall)) (v : atomic_t)
    (hv : InRange v.counter) (hdone : all_issued (run_schedule sched cs v).1 = true) :
    (run_schedule sched cs v).2.counter = wrap32 (v.counter + total_delta cs) := by
  have h := run_schedule_sum sched cs v
  rw [total_delta_of_all_issued _ hdone, add_zero,
    wrap32_of_inRange _ (run_schedule_inRange sched cs v hv)] at h
  exact h

theorem total_delta_replicate_inc (n : Nat) :
    total_delta (List.replicate n [CounterCall.inc]) = n := by
  induction n with
  | zero => rfl
  | succ k ih =>
    simp only [List.replicate_succ, total_delta, ih, List.map_cons, List.map_nil, List.sum_cons,
      List.sum_nil, CounterCall.delta]
    push_cast
    omega

theorem sched_step_at (k : Nat) :
    ∀ (c : CounterCall) (rest : List (List CounterCall)) (v : atomic_t),
      (sched_step k (List.replicate k [] ++ ([c] :: rest)) v).1
        = List.replicate (k + 1) [] ++ rest := by
  induction k with
  | zero =>
    intro c rest v
    rfl
  | succ k ih =>
    intro c rest v
    have e : List.replicate (k + 1) ([] : List CounterCall) ++ ([c] :: rest)
        = [] :: (List.replicate k [] ++ ([c] :: rest)) := by
      simp [List.replicate_succ]
    rw [e]
    show [] :: (sched_step k (List.replicate k [] ++ ([c] :: rest)) v).1
      = List.replicate (k + 1 + 1) [] ++ rest
    rw [ih c rest v]
    simp [List.replicate_succ]

/-- Contexts `k`, `k + 1`, ... taking their single turn in order issue every
call. -/
theorem run_schedule_in_order (m : Nat) :
    ∀ (k : Nat) (v : atomic_t),
      (run_schedule (List.range' k m)
        (List.replicate k [] ++ List.replicate m [CounterCall.inc]) v).1
        = List.replicate (k + m) [] := by
  induction m with
  | zero =>
    intro k v
    simp [run_schedule]
  | succ m ih =>
    intro k v
    simp only [List.range'_succ, List.replicate_succ, run_schedule]
    rw [sched_step_at k CounterCall.inc (List.replicate m [CounterCall.inc]) v]
    have h := ih (k + 1)
      (sched_step k (List.replicate k [] ++ ([CounterCall.inc]
        :: List.replicate m [CounterCall.inc])) v).2
    rw [h]
    congr 1
    omega

theorem all_issued_replicate (n : Nat) : all_issued (List.replicate n []) = true := by
  induction n with
  | zero => rfl
  | succ k ih =>
    unfold all_issued at ih
    simp [all_issued, List.replicate_succ, ih]

/-- C11, as the code has it: for every finite collection of `atomic_add` /
`atomic_sub` / `atomic_inc` calls issued by any number of contexts on one
counter initialised to 0, and every interleaving that issues them all, the
final counter is the sum of all deltas wrapped to 32 bits, so no update is
lost; it is the exact sum whenever that sum fits in an `int`, and 1000
contexts each calling `atomic_inc` once leave exactly 1000 (the contexts taking
their turn in order is one interleaving that issues all 1000 calls). -/
theorem concurrent_updates_sum (sched : List Nat) (cs : List (List CounterCall))
    (hdone : all_issued (run_schedule sched cs { counter := 0 }).1 = true) :
    (run_schedule sched cs { counter := 0 }).2.counter = wrap32 (total_delta cs)
    ∧ (InRange (total_delta cs) →
        (run_schedule sched cs { counter := 0 }).2.counter = total_delta cs)
    ∧ (∀ s : List Nat,
        all_issued (run_schedule s (List.replicate 1000 [CounterCall.inc]) { counter := 0 }).1
          = true →
        (run_schedule s (List.replicate 1000 [CounterCall.inc]) { counter := 0 }).2.counter
          = 1000)
    ∧ all_issued (run_schedule (List.range' 0 1000)
        (List.replicate 1000 [CounterCall.inc]) { counter := 0 }).1 = true := by
  have h0 : InRange (atomic_t.mk 0).counter := by decide
  have hfin : ∀ (s : List Nat) (c : List (List CounterCall)),
      all_issued (run_schedule s c { counter := 0 }).1 = true →
      (run_schedule s c { counter := 0 }).2.counter = wrap32 (total_delta c) := by
    intro s c hd
    have h := run_schedule_final s c { counter := 0 } h0 hd
    simpa using h
  refine ⟨hfin sched cs hdone, ?_, ?_, ?_⟩
  · intro hr
    rw [hfin sched cs hdone, wrap32_of_inRange _ hr]
  · intro s hs
    rw [hfin s _ hs, total_delta_replicate_inc]
    decide
  · have h := run_schedule_in_order 1000 0 { counter := 0 }
    simp only [List.replicate_zero, List.nil_append, Nat.zero_add] at h
    rw [h]
    exact all_issued_replicate 1000

/-- Witness for C11 as amended: two contexts, one issuing `atomic_add(5)` then
`atomic_sub(2)`, the other `atomic_inc`, interleaved as second, first, first. -/
theorem concurrent_updates_sum_witness :
    all_issued (run_schedule [1, 0, 0]
        [[CounterCall.add 5, CounterCall.sub 2], [CounterCall.inc]] { counter := 0 }).1 = true
    ∧ (run_schedule [1, 0, 0]
        [[CounterCall.add 5, CounterCall.sub 2], [CounterCall.inc]] { counter := 0 }).2.counter
        = wrap32 (total_delta [[CounterCall.add 5, CounterCall.sub 2], [CounterCall.inc]])
    ∧ (InRange (total_delta [[CounterCall.add 5, CounterCall.sub 2], [CounterCall.inc]]) →
        (run_schedule [1, 0, 0]
          [[CounterCall.add 5, CounterCall.sub 2], [CounterCall.inc]] { counter := 0 }).2.counter
          = total_delta [[CounterCall.add 5, CounterCall.sub 2], [CounterCall.inc]])
    ∧ (∀ s : List Nat,
        all_issued (run_schedule s (List.replicate 1000 [CounterCall.inc]) { counter := 0 }).1
          = true →
        (run_schedule s (List.replicate 1000 [CounterCall.inc]) { counter := 0 }).2.counter
          = 1000)
    ∧ all_issued (run_schedule (List.range' 0 1000)
        (List.replicate 1000 [CounterCall.inc]) { counter := 0 }).1 = true :=
  ⟨by decide,
    concurrent_updates_sum [1, 0, 0]
      [[CounterCall.add 5, CounterCall.sub 2], [CounterCall.inc]] (by decide)⟩

/-- C11 as stated fails when the sum of the deltas leaves the range of an
`int`: two contexts each issuing `atomic_add(INT_MAX)` once leave the counter
at -2 in either order, while the arithmetic sum is 4294967294. -/
theorem concurrent_updates_sum_counterexample :
    InRange INT_MAX
    ∧ all_issued (run_schedule [0, 1]
        [[CounterCall.add INT_MAX], [CounterCall.add INT_MAX]] { counter := 0 }).1 = true
    ∧ (run_schedule [0, 1]
        [[CounterCall.add INT_MAX], [CounterCall.add INT_MAX]] { counter := 0 }).2.counter = -2
    ∧ (run_schedule [1, 0]
        [[CounterCall.add INT_MAX], [CounterCall.add INT_MAX]] { counter := 0 }).2.counter = -2
    ∧ total_delta [[CounterCall.add INT_MAX], [CounterCall.add INT_MAX]] = 4294967294
    ∧ (run_schedule [0, 1]
        [[CounterCall.add INT_MAX], [CounterCall.add INT_MAX]] { counter := 0 }).2.counter
        ≠ total_delta [[CounterCall.add INT_MAX], [CounterCall.add INT_MAX]] := by
  decide

end XenAtomic
